import Mathlib

/-!
Verification development for the ShiroInk manga/comic image conversion tool.

The Python sources are shallowly embedded: pipelines are lists of step
descriptors, the error tracker is an explicit record folded through the
calls, the per-file retry loop is a structural recursion over the attempt
index, and the heap of mutable pipeline objects is an explicit store.
Each definition mirrors one Python function and is named after it where
Lean allows.
-/

namespace ShiroInk

/-! ## Strings: the Python substring test `kw in name` -/

/-- Python `needle in hay` on strings: substring containment. -/
def strContains (hay needle : String) : Bool :=
  decide (needle.toList <:+: hay.toList)

/-- The keyword list of `_insert_resize_step` (src/image_pipeline/__init__.py,
line 110): steps whose name matches one of these as a substring are the
pre-resize steps, plus the resize step itself. -/
def pre_resize_keywords : List String :=
  ["Crop", "Rotate", "TextEnhance", "Resize"]

/-- The `any(keyword in step_name for keyword in [...])` test of
`_insert_resize_step`. -/
def matchesPreKeyword (step_name : String) : Bool :=
  pre_resize_keywords.any (fun kw => strContains step_name kw)

/-- `ResizeStep.get_name` (src/image_pipeline/resize_step.py line 67) for an
enabled step: the f-string `Resize({w}x{h})`. -/
def resize_get_name (resolution : Nat × Nat) : String :=
  "Resize(" ++ toString resolution.1 ++ "x" ++ toString resolution.2 ++ ")"

/-- `_insert_resize_step`, loop body (src/image_pipeline/__init__.py lines
104-121).  Steps are represented by their `get_name()` strings; the Boolean
is the `resize_inserted` flag. -/
def insertResizeAux (resolution : Nat × Nat) : List String → Bool → List String
  | [], inserted => if inserted then [] else [resize_get_name resolution]
  | s :: rest, inserted =>
    let doInsert := !inserted && !(matchesPreKeyword s)
    (if doInsert then [resize_get_name resolution] else []) ++
      ((if strContains s "Resize" then [] else [s]) ++
        insertResizeAux resolution rest (inserted || doInsert))

/-- `_insert_resize_step(pipeline, resolution)`: builds a fresh step list with
a single `ResizeStep` placed before the first post-resize step. -/
def insert_resize_step (steps : List String) (resolution : Nat × Nat) : List String :=
  insertResizeAux resolution steps false

/-! ## `ImagePipeline.remove_step` (src/image_pipeline/pipeline.py lines 75-86) -/

/-- A pipeline step object: its `get_name()` string plus an identity tag so
that two distinct step objects with equal names can be told apart. -/
structure StepObj where
  name : String
  uid : Nat
deriving DecidableEq

/-- `remove_step`: `self.steps = [s for s in self.steps if s.get_name() != step_name]`. -/
def remove_step (steps : List StepObj) (step_name : String) : List StepObj :=
  steps.filter (fun s => s.name != step_name)

/-! ## Devices and `PipelinePresets.from_device_spec`
(src/image_pipeline/devices/_specs.py, src/image_pipeline/presets.py lines 325-423) -/

/-- `DisplayType` enum (src/image_pipeline/enums.py). -/
inductive DisplayType where
  | eink
  | lcd
  | oled
  | retina
deriving DecidableEq

/-- `ColorGamut` enum (src/image_pipeline/enums.py); the `NONE` member is
represented by `Option.none` at use sites, matching `color_gamut: Optional[ColorGamut]`. -/
inductive ColorGamut where
  | srgb
  | dci_p3
  | adobe_rgb
deriving DecidableEq

/-- `DeviceSpec` dataclass (src/image_pipeline/devices/_specs.py).
Python floats carried as rationals. -/
structure DeviceSpec where
  name : String
  resolution : Nat × Nat
  display_type : DisplayType
  ppi : Nat
  screen_size_inches : ℚ
  color_support : Bool
  color_gamut : Option ColorGamut
  bit_depth : Nat
  max_colors : Option Nat
  recommended_pipeline : String
  description : String
deriving DecidableEq

/-- A configured pipeline step, one constructor per Python step class with the
constructor arguments that `from_device_spec` passes.  The two quantize
constructors record the two call shapes
`QuantizeStep(colors=..., color_mode=True)` and
`QuantizeStep(use_bit_depth=True, bit_depth=..., color_mode=False)`. -/
inductive PipeStep where
  | autoRotate (max_angle threshold : ℚ)
  | smartCrop (threshold min_margin : Nat)
  | textEnhance (text_sharpen edge_enhance : ℚ)
  | colorProfile (color_support : Bool) (target_gamut : Option ColorGamut) (bit_depth : Nat)
  | contrast (factor : ℚ)
  | sharpen (factor : ℚ)
  | quantizeColors (colors : Option Nat)
  | quantizeBitDepth (bit_depth : Nat)
deriving DecidableEq

/-- The classification of a step by its class, used to state ordering facts. -/
inductive StepKind where
  | rotateK
  | cropK
  | textK
  | colorK
  | contrastK
  | sharpenK
  | quantK
deriving DecidableEq

def kindOf : PipeStep → StepKind
  | .autoRotate _ _ => .rotateK
  | .smartCrop _ _ => .cropK
  | .textEnhance _ _ => .textK
  | .colorProfile _ _ _ => .colorK
  | .contrast _ => .contrastK
  | .sharpen _ => .sharpenK
  | .quantizeColors _ => .quantK
  | .quantizeBitDepth _ => .quantK

/-- `PipelinePresets.from_device_spec` (src/image_pipeline/presets.py lines
325-423), step by step in source order. -/
def from_device_spec (d : DeviceSpec) : List PipeStep :=
  [PipeStep.autoRotate 5 0.5,
   PipeStep.smartCrop 245 10,
   (if d.display_type = DisplayType.eink then
      PipeStep.textEnhance 1.5 0.3
    else
      PipeStep.textEnhance 1.3 0.25),
   PipeStep.colorProfile d.color_support d.color_gamut d.bit_depth,
   PipeStep.contrast
     (if d.display_type = DisplayType.eink then
        (if d.color_support then 1.3 else 1.6)
      else 1.2),
   PipeStep.sharpen
     (if d.display_type = DisplayType.eink then
        (if 300 ≤ d.ppi then 1.3 else 1.2)
      else (if 300 ≤ d.ppi then 1.4 else 1.3))]
  ++ (if d.bit_depth < 16 then
        [if d.color_support then PipeStep.quantizeColors d.max_colors
         else PipeStep.quantizeBitDepth d.bit_depth]
      else [])

/-- The contrast factor exactly as the claim words it: 1.6 for mono e-ink,
1.3 for color e-ink, 1.2 otherwise. -/
def claimContrastFactor (d : DeviceSpec) : ℚ :=
  if d.display_type = DisplayType.eink ∧ d.color_support = false then 1.6
  else if d.display_type = DisplayType.eink ∧ d.color_support = true then 1.3
  else 1.2

/-- The sharpen factor exactly as the claim words it: 1.3 (e-ink) or 1.4
(other) when ppi >= 300, else 1.2 (e-ink) or 1.3 (other). -/
def claimSharpenFactor (d : DeviceSpec) : ℚ :=
  if 300 ≤ d.ppi then (if d.display_type = DisplayType.eink then 1.3 else 1.4)
  else (if d.display_type = DisplayType.eink then 1.2 else 1.3)

/-- A concrete mono e-ink device (Kindle Paperwhite class) used as a witness
input. -/
def sampleEinkDevice : DeviceSpec :=
  ⟨"Kindle Paperwhite 11", (1236, 1648), DisplayType.eink, 300, 6.8,
    false, none, 4, some 16, "kindle", "6.8 inch e-ink"⟩

/-! ## Severities, `__process_file` retry loop (src/file_processor.py lines 125-190) -/

/-- `ErrorSeverity` enum (src/error_handler.py). -/
inductive Severity where
  | warning
  | error
  | critical
deriving DecidableEq

/-- The `for attempt in range(max_retries + 1)` loop of `__process_file`:
`fails i` says whether the `process(...)` call of attempt `i` raises;
`attempt` is the current index and the extra `Nat` argument counts the
attempts still allowed after it (`max_retries - attempt`).  Returns the
number of `process` calls executed and whether the loop re-raised. -/
def retryLoopGo (fails : Nat → Bool) (attempt : Nat) : Nat → Nat × Bool
  | 0 => (1, fails attempt)
  | k + 1 =>
    if fails attempt then
      let r := retryLoopGo fails (attempt + 1) k
      (r.1 + 1, r.2)
    else (1, false)

def retry_loop (fails : Nat → Bool) (max_retries : Nat) : Nat × Bool :=
  retryLoopGo fails 0 max_retries

/-- Observable outcome of one `__process_file` call: how many `process`
attempts ran, which `(severity, step)` records were added to the tracker, and
whether the error propagated out of the worker. -/
structure FileOutcome where
  attempts : Nat
  recorded : List (Severity × String)
  raised : Bool
deriving DecidableEq

/-- `__process_file` (src/file_processor.py lines 125-190), for a file whose
destination bookkeeping succeeds: dry-run skips processing; otherwise the
retry loop runs, and if it re-raises the handler records one ERROR with step
`image_processing` and re-raises exactly when `continue_on_error` is false. -/
def process_file (dry_run continue_on_error : Bool) (max_retries : Nat)
    (fails : Nat → Bool) : FileOutcome :=
  if dry_run then ⟨0, [], false⟩
  else
    let r := retry_loop fails max_retries
    if r.2 then ⟨r.1, [(Severity.error, "image_processing")], !continue_on_error⟩
    else ⟨r.1, [], false⟩

/-! ## `ErrorTracker` (src/error_handler.py lines 25-133)
The `error: Exception` field is abstracted away and the wall-clock
`timestamp` is omitted (real time is outside the embedding); neither is read
by any tracker query. -/

/-- `ErrorRecord` dataclass fields read by the tracker queries. -/
structure ErrRecord where
  path : Option String
  severity : Severity
  step : Option String
  retry_count : Nat
deriving DecidableEq

/-- `ErrorTracker` state: the append-only `errors` list and the two Python
dicts `_file_errors` / `_step_errors`, kept as insertion-ordered
key-value lists exactly as CPython dicts iterate. -/
structure ErrorTracker where
  errors : List ErrRecord
  file_errors : List (String × Nat)
  step_errors : List (String × Nat)
deriving DecidableEq

/-- Python `d.get(k, 0)`. -/
def dictGet (d : List (String × Nat)) (k : String) : Nat :=
  match d.find? (fun p => p.1 == k) with
  | some p => p.2
  | none => 0

/-- Python `d[k] = v`: update in place when the key exists, else append the
new key at the end (CPython insertion order). -/
def dictSet (d : List (String × Nat)) (k : String) (v : Nat) : List (String × Nat) :=
  if d.any (fun p => p.1 == k) then
    d.map (fun p => if p.1 == k then (k, v) else p)
  else d ++ [(k, v)]

/-- `ErrorTracker.add_error` (src/error_handler.py lines 57-88): append the
record, then bump the per-file and per-step statistics when path/step are
not None. -/
def add_error (t : ErrorTracker) (path : Option String) (severity : Severity)
    (step : Option String) (retry_count : Nat) : ErrorTracker :=
  let t1 : ErrorTracker :=
    { t with errors := t.errors ++ [⟨path, severity, step, retry_count⟩] }
  let t2 : ErrorTracker :=
    match path with
    | some p => { t1 with file_errors := dictSet t1.file_errors p (dictGet t1.file_errors p + 1) }
    | none => t1
  match step with
  | some s => { t2 with step_errors := dictSet t2.step_errors s (dictGet t2.step_errors s + 1) }
  | none => t2

/-- `ErrorTracker.get_errors`. -/
def get_errors (t : ErrorTracker) (severity : Option Severity) : List ErrRecord :=
  match severity with
  | none => t.errors
  | some v => t.errors.filter (fun e => e.severity == v)

/-- `ErrorTracker.has_errors`. -/
def has_errors (t : ErrorTracker) : Bool :=
  decide (0 < t.errors.length)

/-- `ErrorTracker.has_critical_errors`. -/
def has_critical_errors (t : ErrorTracker) : Bool :=
  t.errors.any (fun e => e.severity == Severity.critical)

/-- The dictionary returned by `ErrorTracker.get_summary`. -/
structure Summary where
  total_errors : Nat
  warnings : Nat
  errors : Nat
  critical : Nat
  files_with_errors : Nat
  most_problematic_file : Option (String × Nat)
  errors_by_step : List (String × Nat)
deriving DecidableEq

/-- Python `max(items, key=lambda x: x[1])` over dict items: the first
maximal entry, `none` for an empty dict. -/
def pyMaxByCount (l : List (String × Nat)) : Option (String × Nat) :=
  l.foldl
    (fun acc p =>
      match acc with
      | none => some p
      | some q => if q.2 < p.2 then some p else some q)
    none

/-- `ErrorTracker.get_summary` (src/error_handler.py lines 114-133). -/
def get_summary (t : ErrorTracker) : Summary :=
  { total_errors := t.errors.length
    warnings := (get_errors t (some Severity.warning)).length
    errors := (get_errors t (some Severity.error)).length
    critical := (get_errors t (some Severity.critical)).length
    files_with_errors := t.file_errors.length
    most_problematic_file := pyMaxByCount t.file_errors
    errors_by_step := t.step_errors }

/-- `ErrorTracker()` freshly constructed. -/
def emptyTracker : ErrorTracker := ⟨[], [], []⟩

/-- N sequential `add_error` calls on a fresh tracker, every call carrying a
non-None step: input i is `(path, severity, step)`. -/
def trackN (inputs : List (Option String × Severity × String)) : ErrorTracker :=
  inputs.foldl (fun t i => add_error t i.1 i.2.1 (some i.2.2) 0) emptyTracker

/-- Sum of the counter values of a dict. -/
def sumCounts (d : List (String × Nat)) : Nat :=
  (d.map Prod.snd).sum

/-! ## `process_images` (src/main.py lines 9-139) -/

/-- What a call to `process_images` does: either it returns an exit code, or
it raises `NameError` — the success branch of the summary epilogue
(src/main.py line 100) evaluates `args.profile` although no name `args` is
bound in the scope of `process_images`. -/
inductive RunOutcome where
  | ret (code : Nat)
  | nameError
deriving DecidableEq

/-- `process_images(config, reporter)` for a run under the default
`continue_on_error=True`: each work item contributes the error records its
processing adds to the tracker.  Returns the outcome and how many top-level
items were processed.  When `src_dir` is not a directory the function
returns 2 before touching any item; otherwise the exit code is computed from
the tracker exactly as in lines 56-93, except that the no-error branch
reaches the unbound name `args` (line 100) and raises `NameError` instead of
returning 0. -/
def process_images (src_is_dir : Bool) (items : List (List ErrRecord)) :
    RunOutcome × Nat :=
  if !src_is_dir then (RunOutcome.ret 2, 0)
  else
    let tracker := items.flatten.foldl
      (fun t r => add_error t r.path r.severity r.step r.retry_count) emptyTracker
    if has_errors tracker then
      if has_critical_errors tracker then (RunOutcome.ret 2, items.length)
      else (RunOutcome.ret 1, items.length)
    else (RunOutcome.nameError, items.length)

/-! ## Concurrent `add_error` (C2): interleaving of the unsynchronized update
`self._step_errors[step] = self._step_errors.get(step, 0) + 1`
(src/error_handler.py lines 82-88).  `ErrorTracker` takes no lock, so between
one worker thread's read of the counter and its write-back the other thread
may run; `list.append` is a single atomic bytecode operation, the dict
read-then-write is two. -/

/-- The shared state touched by concurrent `add_error(step=s)` calls for one
fixed step name: the `errors` list (records named by id) and the counter
`_step_errors[s]`. -/
structure SharedTracker where
  errors : List Nat
  step_count : Nat
deriving DecidableEq

/-- Program counter of one thread inside `add_error`: about to append the
record, about to read the counter, about to write the counter back, done. -/
inductive AddErrorPC where
  | atAppend
  | atRead
  | atWrite
  | finished
deriving DecidableEq

structure ThreadSt where
  pc : AddErrorPC
  reg : Nat
deriving DecidableEq

structure ConcState where
  shared : SharedTracker
  t1 : ThreadSt
  t2 : ThreadSt
deriving DecidableEq

/-- One atomic step of a thread executing `add_error`. -/
def stepAddError (rid : Nat) (ts : ThreadSt) (sh : SharedTracker) :
    ThreadSt × SharedTracker :=
  match ts.pc with
  | AddErrorPC.atAppend =>
    (⟨AddErrorPC.atRead, ts.reg⟩, { sh with errors := sh.errors ++ [rid] })
  | AddErrorPC.atRead =>
    (⟨AddErrorPC.atWrite, sh.step_count⟩, sh)
  | AddErrorPC.atWrite =>
    (⟨AddErrorPC.finished, ts.reg⟩, { sh with step_count := ts.reg + 1 })
  | AddErrorPC.finished => (ts, sh)

/-- Run the thread chosen by the scheduler for one atomic step. -/
def schedStep (s : ConcState) (who : Bool) : ConcState :=
  if who then
    let r := stepAddError 1 s.t1 s.shared
    { s with t1 := r.1, shared := r.2 }
  else
    let r := stepAddError 2 s.t2 s.shared
    { s with t2 := r.1, shared := r.2 }

def runSchedule (sched : List Bool) (s : ConcState) : ConcState :=
  sched.foldl schedStep s

def initConc : ConcState :=
  ⟨⟨[], 0⟩, ⟨AddErrorPC.atAppend, 0⟩, ⟨AddErrorPC.atAppend, 0⟩⟩

/-- The interleaving: both threads append, both read counter 0, both write 1. -/
def lostUpdateSchedule : List Bool :=
  [true, false, true, false, true, false]

/-! ## `SmartCropStep.process` (src/image_pipeline/crop.py lines 43-97)
The grayscale-difference analysis is abstracted into a content bounding box:
`bbox` is what `diff.getbbox()` returns for the image (None when the
amplified difference is all zero).  `PIL.Image.crop` keeps the pixels of the
cropped region, so when the region contains the whole content box the
content box of the cropped image is the original one shifted by the crop
origin. -/

structure MImage where
  width : Nat
  height : Nat
  bbox : Option (Nat × Nat × Nat × Nat)
deriving DecidableEq

/-- PIL guarantees for `getbbox` on a `width × height` image: the box is
within bounds and nonempty (`left < right ≤ width`, `upper < lower ≤ height`);
stated with `≤` on the left edges, which is all the proofs need. -/
def MImage.validBBox (img : MImage) : Prop :=
  ∀ l t r b, img.bbox = some (l, t, r, b) →
    l ≤ r ∧ r ≤ img.width ∧ t ≤ b ∧ b ≤ img.height

/-- `SmartCropStep.process`: clamp the box outward by `min_margin`, compute
`crop_amount = (bbox[0]-left) + (bbox[1]-top) + (width-right) + (height-bottom)`
and crop only when it exceeds `min_margin * 2`.  Python `max(0, x - m)` is
Nat subtraction. -/
def smart_crop_process (enabled : Bool) (min_margin : Nat) (img : MImage) : MImage :=
  if !enabled then img
  else
    match img.bbox with
    | none => img
    | some (l, t, r, b) =>
      let left := l - min_margin
      let top := t - min_margin
      let right := min img.width (r + min_margin)
      let bottom := min img.height (b + min_margin)
      let crop_amount := (l - left) + (t - top) + (img.width - right) + (img.height - bottom)
      if min_margin * 2 < crop_amount then
        ⟨right - left, bottom - top, some (l - left, t - top, r - left, b - top)⟩
      else img

/-- Concrete image refuting the removed-margin reading of the crop
condition: content box `(10, 10, 89, 50)` in a 100 × 50 image. -/
def cexCropImage : MImage :=
  ⟨100, 50, some (10, 10, 89, 50)⟩

/-! ## `AutoRotateStep.process` (src/image_pipeline/rotation.py lines 70-105)
The detection strategies (`_detect_rotation_opencv` / `_detect_rotation_basic`)
are abstracted: the detected angle is a parameter.  Python floats are
rationals here.  `PIL.Image.rotate(..., expand=False, fillcolor=...)` keeps
the canvas size and fills exposed corners with the given color; the result
records the angle and fill color passed to it, `none` when the image object
is returned unchanged. -/

structure AutoRotateCfg where
  max_angle : ℚ
  threshold : ℚ
  enabled : Bool
  fill_color : String
deriving DecidableEq

structure RotResult where
  width : Nat
  height : Nat
  rotated_by : Option (ℚ × String)
deriving DecidableEq

/-- `AutoRotateStep.process`: skip when disabled, when `abs(angle) < threshold`
or when `abs(angle) > max_angle`; otherwise counter-rotate by `-angle` on the
same canvas with the configured fill color. -/
def auto_rotate_process (cfg : AutoRotateCfg) (width height : Nat) (angle : ℚ) :
    RotResult :=
  if !cfg.enabled then ⟨width, height, none⟩
  else if |angle| < cfg.threshold then ⟨width, height, none⟩
  else if cfg.max_angle < |angle| then ⟨width, height, none⟩
  else ⟨width, height, some (-angle, cfg.fill_color)⟩

/-! ## Heap model for C9: `_insert_resize_step` never mutates its argument
Pipeline objects are mutable (`add_step` appends to `self.steps`), so they
live in an explicit store: reference `q` holds the step-name list
`σ.steps q`; `σ.next` is the next fresh reference. -/

structure PipeHeap where
  steps : Nat → List String
  next : Nat

/-- `ImagePipeline.add_step` on the pipeline object `p`: mutates `p` in
place. -/
def add_step_h (σ : PipeHeap) (p : Nat) (s : String) : PipeHeap :=
  { σ with steps := fun q => if q = p then σ.steps q ++ [s] else σ.steps q }

/-- The `for step in pipeline.steps` loop of `_insert_resize_step`, writing
through `add_step` into the freshly allocated pipeline `np`. -/
def insertLoopH (np : Nat) (resolution : Nat × Nat) :
    List String → Bool → PipeHeap → PipeHeap
  | [], inserted, σ =>
    if inserted then σ else add_step_h σ np (resize_get_name resolution)
  | s :: rest, inserted, σ =>
    let doInsert := !inserted && !(matchesPreKeyword s)
    let σ1 := if doInsert then add_step_h σ np (resize_get_name resolution) else σ
    let σ2 := if strContains s "Resize" then σ1 else add_step_h σ1 np s
    insertLoopH np resolution rest (inserted || doInsert) σ2

/-- `_insert_resize_step(pipeline, resolution)` on the store: allocate
`new_pipeline = ImagePipeline()`, run the loop, return the new reference and
the updated store. -/
def insert_resize_step_h (σ : PipeHeap) (p : Nat) (resolution : Nat × Nat) :
    Nat × PipeHeap :=
  let np := σ.next
  let σ1 : PipeHeap := ⟨fun q => if q = np then [] else σ.steps q, σ.next + 1⟩
  (np, insertLoopH np resolution (σ.steps p) false σ1)

/-- One per-file run of `process` (src/image_pipeline/__init__.py lines
18-80) as far as pipeline objects are concerned: the only operation touching
the store is `_insert_resize_step`; `pipeline_with_resize.process(image)`
only reads. -/
def process_run (σ : PipeHeap) (p : Nat) (resolution : Nat × Nat) : PipeHeap :=
  (insert_resize_step_h σ p resolution).2

/-- `n` successive per-file runs against the same shared pipeline `p`. -/
def process_runs (σ : PipeHeap) (p : Nat) (resolution : Nat × Nat) : Nat → PipeHeap
  | 0 => σ
  | n + 1 => process_run (process_runs σ p resolution n) p resolution

end ShiroInk

namespace ShiroInk

/-! ## Helper lemmas -/

theorem strContains_iff (hay needle : String) :
    strContains hay needle = true ↔ needle.toList <:+: hay.toList := by
  simp [strContains]

theorem resize_get_name_contains (resolution : Nat × Nat) :
    strContains (resize_get_name resolution) "Resize" = true := by
  rw [strContains_iff]
  refine List.IsPrefix.isInfix ?_
  have h2 : (resize_get_name resolution).toList
      = "Resize(".toList
        ++ ((toString resolution.1).toList
          ++ ("x".toList ++ ((toString resolution.2).toList ++ ")".toList))) := by
    simp [resize_get_name, String.toList, String.data_append]
  rw [h2]
  have h1 : "Resize".toList <+: "Resize(".toList := by decide
  exact h1.trans (List.prefix_append _ _)

theorem resize_get_name_matches (resolution : Nat × Nat) :
    matchesPreKeyword (resize_get_name resolution) = true := by
  simp [matchesPreKeyword, pre_resize_keywords]
  exact Or.inr (Or.inr (Or.inr (resize_get_name_contains resolution)))

theorem not_matches_not_resize {s : String} (h : matchesPreKeyword s = false) :
    strContains s "Resize" = false := by
  simp [matchesPreKeyword, pre_resize_keywords] at h
  simpa using h.2.2.2

theorem insertResizeAux_true (resolution : Nat × Nat) (steps : List String) :
    insertResizeAux resolution steps true
      = steps.filter (fun s => !strContains s "Resize") := by
  induction steps with
  | nil => simp [insertResizeAux]
  | cons s rest ih =>
    simp only [insertResizeAux, Bool.not_true, Bool.false_and, Bool.true_or]
    cases h : strContains s "Resize" <;> simp [h, ih, List.filter_cons]

theorem insertResizeAux_false (resolution : Nat × Nat) (steps : List String) :
    insertResizeAux resolution steps false
      = (steps.takeWhile matchesPreKeyword).filter (fun s => !strContains s "Resize")
        ++ resize_get_name resolution
          :: (steps.dropWhile matchesPreKeyword).filter (fun s => !strContains s "Resize") := by
  induction steps with
  | nil => simp [insertResizeAux]
  | cons s rest ih =>
    cases h : matchesPreKeyword s with
    | true =>
      simp only [insertResizeAux, h, Bool.not_true, Bool.and_false, Bool.not_false,
        Bool.false_or, List.takeWhile_cons, List.dropWhile_cons]
      cases hr : strContains s "Resize" <;>
        simp [h, hr, ih, List.filter_cons]
    | false =>
      have hr := not_matches_not_resize h
      simp only [insertResizeAux, h, Bool.not_false, Bool.and_true, Bool.true_or,
        List.takeWhile_cons, List.dropWhile_cons]
      simp [hr, insertResizeAux_true, List.filter_cons]

/-! ## C1 -/

/-- C1: `_insert_resize_step` returns a pipeline with exactly one
Resize step.  First conjunct: the result is the Resize-free part of the
longest keyword-matching leading segment, then the new Resize step, then the
Resize-free remainder — so the new step sits immediately before the first
step whose name matches none of Crop/Rotate/TextEnhance/Resize, every
pre-existing Resize-named step is dropped, and when every step matches (or
the list is empty) the Resize step lands at the end.  Second conjunct: the
result holds exactly one Resize-named step.  Third conjunct: the non-Resize
steps keep their original relative order. -/
theorem insert_resize_step_spec (resolution : Nat × Nat) (steps : List String) :
    insert_resize_step steps resolution
      = (steps.takeWhile matchesPreKeyword).filter (fun s => !strContains s "Resize")
        ++ resize_get_name resolution
          :: (steps.dropWhile matchesPreKeyword).filter (fun s => !strContains s "Resize")
    ∧ (insert_resize_step steps resolution).countP (fun s => strContains s "Resize") = 1
    ∧ (insert_resize_step steps resolution).filter (fun s => !strContains s "Resize")
        = steps.filter (fun s => !strContains s "Resize") := by
  have hchar := insertResizeAux_false resolution steps
  refine ⟨hchar, ?_, ?_⟩
  · rw [insert_resize_step, hchar]
    have hz : ∀ l : List String,
        (l.filter (fun s => !strContains s "Resize")).countP
          (fun s => strContains s "Resize") = 0 := by
      intro l
      rw [List.countP_eq_zero]
      intro a ha
      have := List.of_mem_filter ha
      simp at this
      simp [this]
    simp [List.countP_append, hz, List.countP_cons, resize_get_name_contains]
  · rw [insert_resize_step, hchar]
    have hidem : ∀ l : List String,
        (l.filter (fun s => !strContains s "Resize")).filter
          (fun s => !strContains s "Resize")
        = l.filter (fun s => !strContains s "Resize") := by
      intro l
      rw [List.filter_filter]
      apply List.filter_congr
      intro a _
      cases h : strContains a "Resize" <;> simp [h]
    rw [List.filter_append, hidem, List.filter_cons]
    simp only [resize_get_name_contains, Bool.not_true, if_neg (by simp : ¬ (false = true))]
    rw [hidem, ← List.filter_append, List.takeWhile_append_dropWhile]

/-! ## C3 -/

theorem length_filter_not_add_countP (p : StepObj → Bool) (l : List StepObj) :
    (l.filter (fun a => !p a)).length + l.countP p = l.length := by
  induction l with
  | nil => simp
  | cons a l ih =>
    cases h : p a <;> simp [List.filter_cons, List.countP_cons, h] <;> omega

/-- C3 counterexample: in a pipeline with two steps both named
`Contrast`, `remove_step("Contrast")` removes both of them, so it is false
that exactly one step is removed (the result would then have length 1; it
has length 0). -/
theorem remove_step_duplicate_counterexample :
    (remove_step [⟨"Contrast", 0⟩, ⟨"Contrast", 1⟩] "Contrast").length ≠ 1 := by
  decide

/-- C3 (amended): `remove_step(name)` removes every step whose name equals
the argument — not only the first — and keeps all other steps in their
original relative order (the result is a sublist of the input containing
exactly the steps with a different name). -/
theorem remove_step_removes_all_matches (steps : List StepObj) (step_name : String) :
    (∀ s ∈ remove_step steps step_name, s.name ≠ step_name)
    ∧ (remove_step steps step_name).Sublist steps
    ∧ (∀ s ∈ steps, s.name ≠ step_name → s ∈ remove_step steps step_name)
    ∧ (remove_step steps step_name).length
        + steps.countP (fun s => s.name == step_name) = steps.length := by
  refine ⟨?_, ?_, ?_, ?_⟩
  · intro s hs
    have := List.of_mem_filter hs
    simpa using this
  · exact List.filter_sublist _
  · intro s hs hname
    apply List.mem_filter_of_mem hs
    simpa using hname
  · have h := length_filter_not_add_countP (fun s => s.name == step_name) steps
    simpa [remove_step, bne] using h

/-- C3 witness: removing `Contrast` from a two-step pipeline keeps the
`Sharpen` step. -/
theorem remove_step_removes_all_matches_witness :
    (⟨"Sharpen", 1⟩ : StepObj) ∈ remove_step [⟨"Contrast", 0⟩, ⟨"Sharpen", 1⟩] "Contrast" :=
  (remove_step_removes_all_matches [⟨"Contrast", 0⟩, ⟨"Sharpen", 1⟩] "Contrast").2.2.1
    ⟨"Sharpen", 1⟩ (by decide) (by decide)

/-! ## C4 -/

/-- C4: for every DeviceSpec, `from_device_spec` emits steps in the order
Rotate, Crop, TextEnhance, ColorProfile, Contrast, Sharpen, followed by a
Quantize step exactly when `bit_depth < 16`; the Contrast factor is 1.6 for
mono e-ink, 1.3 for color e-ink, 1.2 otherwise; the Sharpen factor is 1.3
(e-ink) / 1.4 (other) when ppi >= 300 and 1.2 (e-ink) / 1.3 (other) below;
the emitted Quantize step carries `max_colors` in color mode for color
devices and the device bit depth with a grayscale palette otherwise. -/
theorem from_device_spec_spec (d : DeviceSpec) :
    (from_device_spec d).map kindOf
      = [StepKind.rotateK, StepKind.cropK, StepKind.textK, StepKind.colorK,
         StepKind.contrastK, StepKind.sharpenK]
        ++ (if d.bit_depth < 16 then [StepKind.quantK] else [])
    ∧ PipeStep.contrast (claimContrastFactor d) ∈ from_device_spec d
    ∧ PipeStep.sharpen (claimSharpenFactor d) ∈ from_device_spec d
    ∧ (if d.bit_depth < 16 then
         (if d.color_support then
            PipeStep.quantizeColors d.max_colors ∈ from_device_spec d
          else PipeStep.quantizeBitDepth d.bit_depth ∈ from_device_spec d)
       else ∀ s ∈ from_device_spec d, kindOf s ≠ StepKind.quantK) := by
  obtain ⟨nm, res, dt, ppi, ssz, cs, cg, bd, mc, rp, ds⟩ := d
  by_cases hb : bd < 16 <;> by_cases hp : 300 ≤ ppi <;>
    cases dt <;> cases cs <;>
      simp [from_device_spec, claimContrastFactor, claimSharpenFactor, kindOf, hb, hp]

/-- C4 witness: on a concrete mono e-ink 300-ppi 4-bit device the synthesized
pipeline contains the 1.6 contrast step. -/
theorem from_device_spec_spec_witness :
    PipeStep.contrast (claimContrastFactor sampleEinkDevice) ∈ from_device_spec sampleEinkDevice :=
  (from_device_spec_spec sampleEinkDevice).2.1

/-! ## C5 -/

theorem retryLoopGo_raised_iff (fails : Nat → Bool) (attempt k : Nat) :
    (retryLoopGo fails attempt k).2 = true ↔ ∀ i ≤ k, fails (attempt + i) = true := by
  induction k generalizing attempt with
  | zero =>
    simp only [retryLoopGo]
    constructor
    · intro h i hi
      have hz : i = 0 := Nat.le_zero.mp hi
      subst hz
      simpa using h
    · intro h
      simpa using h 0 (Nat.le_refl 0)
  | succ k ih =>
    cases h : fails attempt with
    | false =>
      have hval : (retryLoopGo fails attempt (k + 1)).2 = false := by
        simp [retryLoopGo, h]
      rw [hval]
      constructor
      · intro hc
        cases hc
      · intro hall
        have h0 := hall 0 (Nat.zero_le _)
        simp [h] at h0
    | true =>
      have hval : (retryLoopGo fails attempt (k + 1)).2
          = (retryLoopGo fails (attempt + 1) k).2 := by
        simp [retryLoopGo, h]
      rw [hval, ih]
      constructor
      · intro hall i hi
        cases i with
        | zero => simpa using h
        | succ j =>
          have hj := hall j (by omega)
          have heq : attempt + (j + 1) = attempt + 1 + j := by omega
          rw [heq]
          exact hj
      · intro hall i hi
        have hj := hall (i + 1) (by omega)
        have heq : attempt + 1 + i = attempt + (i + 1) := by omega
        rw [heq]
        exact hj

theorem retryLoopGo_attempts_le (fails : Nat → Bool) (attempt k : Nat) :
    (retryLoopGo fails attempt k).1 ≤ k + 1 := by
  induction k generalizing attempt with
  | zero => simp [retryLoopGo]
  | succ k ih =>
    cases h : fails attempt with
    | false =>
      have hval : (retryLoopGo fails attempt (k + 1)).1 = 1 := by
        simp [retryLoopGo, h]
      omega
    | true =>
      have hval : (retryLoopGo fails attempt (k + 1)).1
          = (retryLoopGo fails (attempt + 1) k).1 + 1 := by
        simp [retryLoopGo, h]
      have hih := ih (attempt + 1)
      omega

theorem retryLoopGo_attempts_of_raised (fails : Nat → Bool) (attempt k : Nat)
    (h : (retryLoopGo fails attempt k).2 = true) :
    (retryLoopGo fails attempt k).1 = k + 1 := by
  induction k generalizing attempt with
  | zero => simp [retryLoopGo]
  | succ k ih =>
    cases hf : fails attempt with
    | false =>
      have hval : (retryLoopGo fails attempt (k + 1)).2 = false := by
        simp [retryLoopGo, hf]
      rw [hval] at h
      cases h
    | true =>
      have h1 : (retryLoopGo fails attempt (k + 1)).1
          = (retryLoopGo fails (attempt + 1) k).1 + 1 := by
        simp [retryLoopGo, hf]
      have h2 : (retryLoopGo fails attempt (k + 1)).2
          = (retryLoopGo fails (attempt + 1) k).2 := by
        simp [retryLoopGo, hf]
      rw [h2] at h
      have hih := ih (attempt + 1) h
      omega

/-- C5: per-file processing makes at most `max_retries + 1` attempts (the
original try plus up to `max_retries` re-attempts); when every attempt
raises, all `max_retries + 1` attempts run, exactly one record with severity
ERROR and step `image_processing` is added, and the failure propagates out of
the worker exactly when `continue_on_error` is false; when some attempt
within the budget succeeds, nothing is recorded and nothing propagates. -/
theorem process_file_spec (continue_on_error : Bool) (max_retries : Nat)
    (fails : Nat → Bool) :
    (process_file false continue_on_error max_retries fails).attempts ≤ max_retries + 1
    ∧ ((∀ i ≤ max_retries, fails i = true) →
        (process_file false continue_on_error max_retries fails).attempts = max_retries + 1
        ∧ (process_file false continue_on_error max_retries fails).recorded
            = [(Severity.error, "image_processing")]
        ∧ ((process_file false continue_on_error max_retries fails).raised = true
            ↔ continue_on_error = false))
    ∧ ((∃ i, i ≤ max_retries ∧ fails i = false) →
        (process_file false continue_on_error max_retries fails).recorded = []
        ∧ (process_file false continue_on_error max_retries fails).raised = false) := by
  refine ⟨?_, ?_, ?_⟩
  · have hle := retryLoopGo_attempts_le fails 0 max_retries
    by_cases hr : (retryLoopGo fails 0 max_retries).2 = true <;>
      simp [process_file, retry_loop, hr] <;> exact hle
  · intro hall
    have hraised : (retryLoopGo fails 0 max_retries).2 = true := by
      rw [retryLoopGo_raised_iff]
      intro i hi
      simpa using hall i hi
    have hatt := retryLoopGo_attempts_of_raised fails 0 max_retries hraised
    refine ⟨?_, ?_, ?_⟩
    · simp [process_file, retry_loop, hraised, hatt]
    · simp [process_file, retry_loop, hraised]
    · simp [process_file, retry_loop, hraised]
  · intro hex
    obtain ⟨i, hi, hfi⟩ := hex
    have hnr : (retryLoopGo fails 0 max_retries).2 = false := by
      cases hr : (retryLoopGo fails 0 max_retries).2 with
      | false => rfl
      | true =>
        rw [retryLoopGo_raised_iff] at hr
        have hri := hr i hi
        simp only [Nat.zero_add] at hri
        rw [hri] at hfi
        cases hfi
    constructor <;> simp [process_file, retry_loop, hnr]

/-- C5 witness: with `max_retries = 2` and only attempt 0 failing, the file
succeeds on a retry, records nothing and propagates nothing. -/
theorem process_file_spec_witness :
    (process_file false true 2 (fun i => decide (i = 0))).recorded = []
    ∧ (process_file false true 2 (fun i => decide (i = 0))).raised = false :=
  (process_file_spec true 2 (fun i => decide (i = 0))).2.2 ⟨1, by decide, by decide⟩

/-! ## Dictionary lemmas for the tracker statistics -/

theorem dictAny_iff (d : List (String × Nat)) (k : String) :
    d.any (fun p => p.1 == k) = true ↔ k ∈ d.map Prod.fst := by
  simp [List.any_eq_true, List.mem_map]

theorem dictSet_keys_of_mem {d : List (String × Nat)} {k : String} (v : Nat)
    (h : k ∈ d.map Prod.fst) :
    (dictSet d k v).map Prod.fst = d.map Prod.fst := by
  rw [dictSet, if_pos ((dictAny_iff d k).mpr h)]
  rw [List.map_map]
  apply List.map_congr_left
  intro p _
  by_cases hpk : p.1 = k
  · simp [hpk]
  · simp [hpk]

theorem dictSet_keys_of_not_mem {d : List (String × Nat)} {k : String} (v : Nat)
    (h : k ∉ d.map Prod.fst) :
    (dictSet d k v).map Prod.fst = d.map Prod.fst ++ [k] := by
  have hany : d.any (fun p => p.1 == k) = false := by
    cases ha : d.any (fun p => p.1 == k) with
    | false => rfl
    | true => exact absurd ((dictAny_iff d k).mp ha) h
  rw [dictSet, if_neg (by simp [hany])]
  simp

theorem dictSet_keys_mem_iff {d : List (String × Nat)} {k k' : String} (v : Nat) :
    (k' ∈ (dictSet d k v).map Prod.fst) ↔ (k' ∈ d.map Prod.fst ∨ k' = k) := by
  by_cases hm : k ∈ d.map Prod.fst
  · rw [dictSet_keys_of_mem v hm]
    constructor
    · exact fun h => Or.inl h
    · rintro (h | h)
      · exact h
      · rw [h]
        exact hm
  · rw [dictSet_keys_of_not_mem v hm]
    simp

theorem dictSet_keys_nodup {d : List (String × Nat)} {k : String} (v : Nat)
    (h : (d.map Prod.fst).Nodup) :
    ((dictSet d k v).map Prod.fst).Nodup := by
  by_cases hm : k ∈ d.map Prod.fst
  · rw [dictSet_keys_of_mem v hm]
    exact h
  · rw [dictSet_keys_of_not_mem v hm]
    simp [List.nodup_append, h, hm]

theorem dictSet_sum {d : List (String × Nat)} {k : String}
    (h : (d.map Prod.fst).Nodup) :
    sumCounts (dictSet d k (dictGet d k + 1)) = sumCounts d + 1 := by
  induction d with
  | nil => simp [dictSet, dictGet, sumCounts]
  | cons a d ih =>
    have hnd : (d.map Prod.fst).Nodup := (List.nodup_cons.mp (by simpa using h)).2
    have hhead : a.1 ∉ d.map Prod.fst := (List.nodup_cons.mp (by simpa using h)).1
    by_cases hk : a.1 = k
    · subst hk
      have hany : (a :: d).any (fun p => p.1 == a.1) = true := by
        simp
      have hget : dictGet (a :: d) a.1 = a.2 := by
        have hfind : List.find? (fun p => p.1 == a.1) (a :: d) = some a := by
          apply List.find?_cons_of_pos
          simp
        simp [dictGet, hfind]
      rw [dictSet, if_pos hany, hget]
      have htail : d.map (fun p => if p.1 == a.1 then (a.1, a.2 + 1) else p) = d := by
        refine (List.map_congr_left ?_).trans (List.map_id d)
        intro p hp
        have hne : p.1 ≠ a.1 := by
          intro hc
          exact hhead (hc ▸ List.mem_map_of_mem Prod.fst hp)
        simp [hne]
      rw [List.map_cons]
      have hhif : (if a.1 == a.1 then (a.1, a.2 + 1) else a) = (a.1, a.2 + 1) := by
        simp
      rw [hhif, htail]
      simp [sumCounts]
      omega
    · have hget : dictGet (a :: d) k = dictGet d k := by
        have hfind : List.find? (fun p => p.1 == k) (a :: d)
            = List.find? (fun p => p.1 == k) d := by
          apply List.find?_cons_of_neg
          simp [hk]
        simp [dictGet, hfind]
      have hstep : dictSet (a :: d) k (dictGet (a :: d) k + 1)
          = a :: dictSet d k (dictGet d k + 1) := by
        rw [hget]
        by_cases hmem : k ∈ d.map Prod.fst
        · have h1 : (a :: d).any (fun p => p.1 == k) = true := by
            rw [dictAny_iff]
            simp
            exact Or.inr (by simpa [List.mem_map] using hmem)
          have h2 : d.any (fun p => p.1 == k) = true := (dictAny_iff d k).mpr hmem
          rw [dictSet, if_pos h1, dictSet, if_pos h2]
          simp [hk]
        · have h2 : d.any (fun p => p.1 == k) = false := by
            cases hx : d.any (fun p => p.1 == k) with
            | false => rfl
            | true => exact absurd ((dictAny_iff d k).mp hx) hmem
          have h1 : (a :: d).any (fun p => p.1 == k) = false := by
            simp [hk, h2]
          rw [dictSet, if_neg (by simp [h1]), dictSet, if_neg (by simp [h2])]
          simp
      rw [hstep]
      simp only [sumCounts, List.map_cons, List.sum_cons] at ih ⊢
      rw [ih hnd]
      omega

theorem add_error_components (t : ErrorTracker) (p : Option String)
    (sev : Severity) (s : String) (rc : Nat) :
    (add_error t p sev (some s) rc).errors = t.errors ++ [⟨p, sev, some s, rc⟩]
    ∧ (add_error t p sev (some s) rc).step_errors
        = dictSet t.step_errors s (dictGet t.step_errors s + 1) := by
  cases p <;> simp [add_error]

theorem trackN_fold_invariant (inputs : List (Option String × Severity × String)) :
    ∀ t : ErrorTracker, (t.step_errors.map Prod.fst).Nodup →
      ((inputs.foldl (fun t i => add_error t i.1 i.2.1 (some i.2.2) 0) t).errors.length
          = t.errors.length + inputs.length
        ∧ sumCounts (inputs.foldl (fun t i => add_error t i.1 i.2.1 (some i.2.2) 0) t).step_errors
            = sumCounts t.step_errors + inputs.length
        ∧ ((inputs.foldl (fun t i => add_error t i.1 i.2.1 (some i.2.2) 0) t).step_errors.map
            Prod.fst).Nodup
        ∧ (∀ k, k ∈ (inputs.foldl (fun t i => add_error t i.1 i.2.1 (some i.2.2) 0)
              t).step_errors.map Prod.fst
            ↔ k ∈ t.step_errors.map Prod.fst ∨ k ∈ inputs.map (fun i => i.2.2))) := by
  induction inputs with
  | nil => intro t ht; simp [ht]
  | cons i rest ih =>
    intro t ht
    have hc := add_error_components t i.1 i.2.1 i.2.2 0
    have ht1 : (((add_error t i.1 i.2.1 (some i.2.2) 0).step_errors).map Prod.fst).Nodup := by
      rw [hc.2]
      exact dictSet_keys_nodup _ ht
    have hrest := ih (add_error t i.1 i.2.1 (some i.2.2) 0) ht1
    have hfold : (i :: rest).foldl (fun t i => add_error t i.1 i.2.1 (some i.2.2) 0) t
        = rest.foldl (fun t i => add_error t i.1 i.2.1 (some i.2.2) 0)
            (add_error t i.1 i.2.1 (some i.2.2) 0) := by
      rw [List.foldl_cons]
    refine ⟨?_, ?_, ?_, ?_⟩
    · rw [hfold, hrest.1, hc.1]
      simp only [List.length_append, List.length_cons, List.length_nil]
      omega
    · rw [hfold, hrest.2.1, hc.2, dictSet_sum ht]
      simp only [List.length_cons]
      omega
    · rw [hfold]
      exact hrest.2.2.1
    · intro k
      rw [hfold, hrest.2.2.2 k, hc.2, dictSet_keys_mem_iff]
      simp only [List.map_cons, List.mem_cons]
      tauto

theorem length_severity_partition (l : List ErrRecord) :
    (l.filter (fun e => e.severity == Severity.warning)).length
    + (l.filter (fun e => e.severity == Severity.error)).length
    + (l.filter (fun e => e.severity == Severity.critical)).length = l.length := by
  induction l with
  | nil => simp
  | cons e l ih =>
    cases h : e.severity <;> simp [List.filter_cons, h] <;> omega

/-! ## C10 -/

/-- C10: after any sequence of N `add_error` calls each carrying a non-None
step on a fresh tracker, `get_summary` reports `total_errors = N`, the
`errors_by_step` counters sum to N over exactly as many keys as there are
distinct step names, and `total_errors` equals the sum of the WARNING, ERROR
and CRITICAL counts. -/
theorem get_summary_consistent (inputs : List (Option String × Severity × String)) :
    (get_summary (trackN inputs)).total_errors = inputs.length
    ∧ sumCounts (get_summary (trackN inputs)).errors_by_step = inputs.length
    ∧ (get_summary (trackN inputs)).errors_by_step.length
        = (inputs.map (fun i => i.2.2)).dedup.length
    ∧ (get_summary (trackN inputs)).warnings + (get_summary (trackN inputs)).errors
        + (get_summary (trackN inputs)).critical
        = (get_summary (trackN inputs)).total_errors := by
  have hmain := trackN_fold_invariant inputs emptyTracker (by simp [emptyTracker])
  have htrk : trackN inputs
      = inputs.foldl (fun t i => add_error t i.1 i.2.1 (some i.2.2) 0) emptyTracker := rfl
  refine ⟨?_, ?_, ?_, ?_⟩
  · simpa [get_summary, htrk, emptyTracker] using hmain.1
  · simpa [get_summary, htrk, emptyTracker, sumCounts] using hmain.2.1
  · have hnd := hmain.2.2.1
    have hmem := hmain.2.2.2
    have hperm : ((trackN inputs).step_errors.map Prod.fst).Perm
        (inputs.map (fun i => i.2.2)).dedup := by
      rw [htrk]
      rw [List.perm_ext_iff_of_nodup hnd (List.nodup_dedup _)]
      intro k
      rw [List.mem_dedup]
      have hk := hmem k
      simpa [emptyTracker] using hk
    have hlen := hperm.length_eq
    simpa [get_summary] using hlen
  · simp only [get_summary, get_errors]
    exact length_severity_partition (trackN inputs).errors

/-! ## C6 -/

/-- C6: the exit-code tests of `process_images` behave as specified for a
non-directory source (immediate 2 with nothing processed), for non-critical
errors (1) and for critical errors (2); but a run that ends with an empty
tracker does not return 0 — the success branch evaluates the unbound name
`args` (src/main.py line 100) and raises `NameError`. -/
theorem process_images_exit_paths :
    process_images false [[⟨none, Severity.error, none, 0⟩]] = (RunOutcome.ret 2, 0)
    ∧ process_images true [[⟨some "a/b.jpg", Severity.error, some "image_processing", 0⟩]]
        = (RunOutcome.ret 1, 1)
    ∧ process_images true [[⟨none, Severity.critical, some "directory_processing", 0⟩]]
        = (RunOutcome.ret 2, 1)
    ∧ process_images true [] = (RunOutcome.nameError, 0)
    ∧ process_images true [[]] = (RunOutcome.nameError, 1) := by
  decide

/-! ## C2 -/

/-- C2: `ErrorTracker.add_error` takes no lock, so the interleaving in which
both worker threads append their record, then both read the step counter
(both seeing 0), then both write back 1, is a legal schedule; it completes
both calls, keeps both records, but leaves the per-step counter at 1 instead
of 2 — an update is lost, refuting lock-guarded consistency. -/
theorem add_error_lost_update :
    (runSchedule lostUpdateSchedule initConc).t1.pc = AddErrorPC.finished
    ∧ (runSchedule lostUpdateSchedule initConc).t2.pc = AddErrorPC.finished
    ∧ (runSchedule lostUpdateSchedule initConc).shared.errors.length = 2
    ∧ (runSchedule lostUpdateSchedule initConc).shared.step_count = 1
    ∧ (runSchedule lostUpdateSchedule initConc).shared.step_count ≠ 2 := by
  decide

/-! ## C7 -/

/-- C7 counterexample: on a 100 × 50 image with content box `(10, 10, 89, 50)`
and `min_margin = 10`, the step crops (the result differs from the input)
although the total margin it removes — one pixel off the right edge — is far
below `2 * min_margin`; so it is false that the step crops only when the sum
of the four removed margins exceeds `2 * min_margin`. -/
theorem smart_crop_counterexample :
    smart_crop_process true 10 cexCropImage ≠ cexCropImage
    ∧ (cexCropImage.width - (smart_crop_process true 10 cexCropImage).width)
      + (cexCropImage.height - (smart_crop_process true 10 cexCropImage).height)
      ≤ 2 * 10 := by
  decide

theorem smart_crop_process_eq_none (m : Nat) (img : MImage) (hb : img.bbox = none) :
    smart_crop_process true m img = img := by
  unfold smart_crop_process
  rw [if_neg (by simp), hb]

theorem smart_crop_process_eq_some (m : Nat) (img : MImage) (l t r b : Nat)
    (hb : img.bbox = some (l, t, r, b)) :
    smart_crop_process true m img =
      if m * 2 < (l - (l - m)) + (t - (t - m)) + (img.width - min img.width (r + m))
          + (img.height - min img.height (b + m)) then
        ⟨min img.width (r + m) - (l - m), min img.height (b + m) - (t - m),
          some (l - (l - m), t - (t - m), r - (l - m), b - (t - m))⟩
      else img := by
  unfold smart_crop_process
  rw [if_neg (by simp), hb]

theorem smart_crop_fixed_output (m w h l t r b : Nat) (hlr : l ≤ r) (hrw : r ≤ w)
    (htb : t ≤ b) (hbh : b ≤ h) :
    smart_crop_process true m
      ⟨min w (r + m) - (l - m), min h (b + m) - (t - m),
        some (l - (l - m), t - (t - m), r - (l - m), b - (t - m))⟩
    = ⟨min w (r + m) - (l - m), min h (b + m) - (t - m),
        some (l - (l - m), t - (t - m), r - (l - m), b - (t - m))⟩ := by
  rw [smart_crop_process_eq_some m _ _ _ _ _ rfl]
  rw [if_neg]
  dsimp only
  omega

/-- C7 (amended): `SmartCropStep.process` crops exactly when a content box is
found and `min(left, min_margin) + min(top, min_margin)` plus the right and
bottom overshoots beyond `min_margin` exceeds `2 * min_margin` — the code
compares this clamp-adjusted quantity, not the total removed margin; and the
step is idempotent: re-applying it to its own output returns that output
unchanged (in particular the size is unchanged). -/
theorem smart_crop_spec (m : Nat) (img : MImage) (hv : img.validBBox) :
    (smart_crop_process true m img ≠ img →
      ∃ l t r b, img.bbox = some (l, t, r, b)
        ∧ m * 2 < min l m + min t m + (img.width - (r + m)) + (img.height - (b + m)))
    ∧ (∀ l t r b, img.bbox = some (l, t, r, b) →
        m * 2 < min l m + min t m + (img.width - (r + m)) + (img.height - (b + m)) →
        smart_crop_process true m img ≠ img)
    ∧ smart_crop_process true m (smart_crop_process true m img)
        = smart_crop_process true m img := by
  match hb : img.bbox with
  | none =>
    have hid : smart_crop_process true m img = img :=
      smart_crop_process_eq_none m img hb
    refine ⟨fun hne => absurd hid hne, ?_, ?_⟩
    · intro l t r b hbs
      cases hbs
    · rw [hid, hid]
  | some (l, t, r, b) =>
    obtain ⟨hlr, hrw, htb, hbh⟩ := hv l t r b hb
    have hunf := smart_crop_process_eq_some m img l t r b hb
    by_cases hcond : m * 2 <
        (l - (l - m)) + (t - (t - m)) + (img.width - min img.width (r + m))
        + (img.height - min img.height (b + m))
    · have himg : smart_crop_process true m img
          = ⟨min img.width (r + m) - (l - m), min img.height (b + m) - (t - m),
              some (l - (l - m), t - (t - m), r - (l - m), b - (t - m))⟩ := by
        rw [hunf, if_pos hcond]
      refine ⟨?_, ?_, ?_⟩
      · intro _
        exact ⟨l, t, r, b, rfl, by omega⟩
      · intro l' t' r' b' hbs hgt heq
        have hl : l = l' := by injection hbs with h; exact congrArg (fun z => z.1) h
        have ht' : t = t' := by
          injection hbs with h
          exact congrArg (fun z => z.2.1) h
        have hr : r = r' := by
          injection hbs with h
          exact congrArg (fun z => z.2.2.1) h
        have hb2 : b = b' := by
          injection hbs with h
          exact congrArg (fun z => z.2.2.2) h
        subst hl; subst ht'; subst hr; subst hb2
        rw [himg] at heq
        have hW := congrArg MImage.width heq
        have hH := congrArg MImage.height heq
        dsimp only at hW hH
        omega
      · rw [himg]
        exact smart_crop_fixed_output m img.width img.height l t r b hlr hrw htb hbh
    · have hid : smart_crop_process true m img = img := by
        rw [hunf, if_neg hcond]
      refine ⟨fun hne => absurd hid hne, ?_, ?_⟩
      · intro l' t' r' b' hbs hgt
        have hl : l = l' := by injection hbs with h; exact congrArg (fun z => z.1) h
        have ht' : t = t' := by
          injection hbs with h
          exact congrArg (fun z => z.2.1) h
        have hr : r = r' := by
          injection hbs with h
          exact congrArg (fun z => z.2.2.1) h
        have hb2 : b = b' := by
          injection hbs with h
          exact congrArg (fun z => z.2.2.2) h
        subst hl; subst ht'; subst hr; subst hb2
        exfalso
        omega
      · rw [hid, hid]

/-- C7 witness: the step is idempotent on the concrete 100 × 50 image. -/
theorem smart_crop_spec_witness :
    smart_crop_process true 10 (smart_crop_process true 10 cexCropImage)
      = smart_crop_process true 10 cexCropImage := by
  have hv : cexCropImage.validBBox := by
    intro l t r b h
    simp [cexCropImage] at h ⊢
    omega
  exact (smart_crop_spec 10 cexCropImage hv).2.2

/-! ## C8 -/

/-- C8: an enabled `AutoRotateStep.process` applies a rotation exactly when
the detected angle satisfies `threshold ≤ |angle| ≤ max_angle` (both bounds
inclusive); outside the band the image is returned unchanged; when it
rotates, the canvas keeps the input width and height, the rotation is the
counter-rotation by `-angle`, and the exposed corners are filled with the
configured fill color. -/
theorem auto_rotate_spec (cfg : AutoRotateCfg) (width height : Nat) (angle : ℚ)
    (hen : cfg.enabled = true) :
    ((auto_rotate_process cfg width height angle).rotated_by ≠ none
      ↔ (cfg.threshold ≤ |angle| ∧ |angle| ≤ cfg.max_angle))
    ∧ (auto_rotate_process cfg width height angle).width = width
    ∧ (auto_rotate_process cfg width height angle).height = height
    ∧ (cfg.threshold ≤ |angle| → |angle| ≤ cfg.max_angle →
        (auto_rotate_process cfg width height angle).rotated_by
          = some (-angle, cfg.fill_color)) := by
  by_cases h1 : |angle| < cfg.threshold
  · have hv : auto_rotate_process cfg width height angle = ⟨width, height, none⟩ := by
      simp [auto_rotate_process, hen, h1]
    rw [hv]
    refine ⟨?_, rfl, rfl, ?_⟩
    · simp only [ne_eq, not_true_eq_false, false_iff]
      intro hc
      exact absurd h1 (not_lt.mpr hc.1)
    · intro hth _
      exact absurd h1 (not_lt.mpr hth)
  · by_cases h2 : cfg.max_angle < |angle|
    · have hv : auto_rotate_process cfg width height angle = ⟨width, height, none⟩ := by
        simp [auto_rotate_process, hen, h1, h2]
      rw [hv]
      refine ⟨?_, rfl, rfl, ?_⟩
      · simp only [ne_eq, not_true_eq_false, false_iff]
        intro hc
        exact absurd h2 (not_lt.mpr hc.2)
      · intro _ hmx
        exact absurd h2 (not_lt.mpr hmx)
    · have hv : auto_rotate_process cfg width height angle
          = ⟨width, height, some (-angle, cfg.fill_color)⟩ := by
        simp [auto_rotate_process, hen, h1, h2]
      rw [hv]
      refine ⟨?_, rfl, rfl, fun _ _ => rfl⟩
      simp only [ne_eq, reduceCtorEq, not_false_eq_true, true_iff]
      exact ⟨not_lt.mp h1, not_lt.mp h2⟩

/-- C8 witness: the preset configuration (`max_angle = 5.0`,
`threshold = 0.5`, fill white) rotates a 1236 × 1648 page with detected
angle 1 degree by −1 degree on the same canvas. -/
theorem auto_rotate_spec_witness :
    (auto_rotate_process ⟨5, 0.5, true, "white"⟩ 1236 1648 1).rotated_by
      = some (-1, "white") :=
  (auto_rotate_spec ⟨5, 0.5, true, "white"⟩ 1236 1648 1 rfl).2.2.2
    (by norm_num) (by norm_num)

/-! ## C9 -/

theorem add_step_h_ne (σ : PipeHeap) (p : Nat) (s : String) (q : Nat) (h : q ≠ p) :
    (add_step_h σ p s).steps q = σ.steps q := by
  simp [add_step_h, h]

theorem insertLoopH_steps_ne (np : Nat) (resolution : Nat × Nat) (q : Nat)
    (hq : q ≠ np) :
    ∀ (l : List String) (inserted : Bool) (σ : PipeHeap),
      (insertLoopH np resolution l inserted σ).steps q = σ.steps q := by
  intro l
  induction l with
  | nil =>
    intro inserted σ
    cases inserted <;> simp [insertLoopH, add_step_h, hq]
  | cons s rest ih =>
    intro inserted σ
    simp only [insertLoopH]
    rw [ih]
    cases hc : strContains s "Resize" <;>
      cases hd : (!inserted && !(matchesPreKeyword s)) <;>
        simp [hc, hd, add_step_h, hq]

theorem insertLoopH_next (np : Nat) (resolution : Nat × Nat) :
    ∀ (l : List String) (inserted : Bool) (σ : PipeHeap),
      (insertLoopH np resolution l inserted σ).next = σ.next := by
  intro l
  induction l with
  | nil =>
    intro inserted σ
    cases inserted <;> simp [insertLoopH, add_step_h]
  | cons s rest ih =>
    intro inserted σ
    simp only [insertLoopH]
    rw [ih]
    cases hc : strContains s "Resize" <;>
      cases hd : (!inserted && !(matchesPreKeyword s)) <;>
        simp [hc, hd, add_step_h]

theorem insertLoopH_steps_new (np : Nat) (resolution : Nat × Nat) :
    ∀ (l : List String) (inserted : Bool) (σ : PipeHeap),
      (insertLoopH np resolution l inserted σ).steps np
        = σ.steps np ++ insertResizeAux resolution l inserted := by
  intro l
  induction l with
  | nil =>
    intro inserted σ
    cases inserted <;> simp [insertLoopH, insertResizeAux, add_step_h]
  | cons s rest ih =>
    intro inserted σ
    simp only [insertLoopH, insertResizeAux]
    rw [ih]
    cases hc : strContains s "Resize" <;>
      cases hd : (!inserted && !(matchesPreKeyword s)) <;>
        simp [hc, hd, add_step_h]

theorem process_run_next (σ : PipeHeap) (p : Nat) (resolution : Nat × Nat) :
    (process_run σ p resolution).next = σ.next + 1 := by
  simp [process_run, insert_resize_step_h, insertLoopH_next]

theorem process_run_steps_lt (σ : PipeHeap) (p : Nat) (resolution : Nat × Nat)
    (q : Nat) (hq : q < σ.next) :
    (process_run σ p resolution).steps q = σ.steps q := by
  have hne : q ≠ σ.next := Nat.ne_of_lt hq
  simp only [process_run, insert_resize_step_h]
  rw [insertLoopH_steps_ne σ.next resolution q hne]
  simp [hne]

theorem process_runs_next (σ : PipeHeap) (p : Nat) (resolution : Nat × Nat) :
    ∀ n, (process_runs σ p resolution n).next = σ.next + n := by
  intro n
  induction n with
  | zero => rfl
  | succ n ih =>
    show (process_run (process_runs σ p resolution n) p resolution).next = σ.next + (n + 1)
    rw [process_run_next, ih]
    omega

/-- C9: `_insert_resize_step` does not mutate the pipeline object it is
given: after one per-file run — and after any number `n` of successive
per-file runs — every previously allocated pipeline object still holds
exactly its original step list; the run's work lands only in the freshly
allocated pipeline, which holds exactly `insert_resize_step` of the shared
pipeline's steps. -/
theorem insert_resize_no_mutation (σ : PipeHeap) (p q : Nat)
    (resolution : Nat × Nat) (n : Nat) (hq : q < σ.next) :
    (process_run σ p resolution).steps q = σ.steps q
    ∧ (process_runs σ p resolution n).steps q = σ.steps q
    ∧ (process_run σ p resolution).steps σ.next
        = insert_resize_step (σ.steps p) resolution := by
  refine ⟨process_run_steps_lt σ p resolution q hq, ?_, ?_⟩
  · induction n with
    | zero => rfl
    | succ n ih =>
      show (process_run (process_runs σ p resolution n) p resolution).steps q = σ.steps q
      rw [process_run_steps_lt, ih]
      rw [process_runs_next]
      omega
  · simp only [process_run, insert_resize_step_h]
    rw [insertLoopH_steps_new σ.next resolution (σ.steps p) false]
    simp [insert_resize_step]

/-- C9 witness: three per-file runs at resolution 100 × 200 leave a shared
one-step pipeline untouched. -/
theorem insert_resize_no_mutation_witness :
    (process_runs ⟨fun _ => ["Contrast"], 1⟩ 0 (100, 200) 3).steps 0 = ["Contrast"] :=
  (insert_resize_no_mutation ⟨fun _ => ["Contrast"], 1⟩ 0 0 (100, 200) 3
    Nat.one_pos).2.1

end ShiroInk
